import Mathlib

set_option maxRecDepth 8000

/-!
Shallow embedding of the record engine of src/src/recordmodule.c.
Definitions mirror the C source function by function; the host machine is
modelled as little-endian (the order the build targets), machine integers are
modelled as Int with explicit reductions where overflow matters, and Python
objects are modelled by a small closed value type.  Theorems at the end of the
file settle the frozen claims about the engine.
-/

/-! Type catalog.  enum Item_Types of recordmodule.h:
String 0, Char8 1, UInt8 2, SInt8 3, UInt16 4, SInt16 5, UInt32 6, SInt32 7,
Float32 8, Float64 9, Complex32 10, Complex64 11. -/

/-- Non-null pattern of the String destination cast table (String_cast):
entries exist for source types String and Char8 only. -/
def String_cast : List Bool :=
  [true, true, false, false, false, false, false, false, false, false, false, false]

/-- Non-null pattern of the Char8 destination cast table (Char8_cast). -/
def Char8_cast : List Bool :=
  [true, true, false, false, false, false, false, false, false, false, false, false]

/-- Non-null pattern of the uInt8 destination cast table (uInt8_cast). -/
def uInt8_cast : List Bool :=
  [false, false, true, true, false, false, false, false, false, false, false, false]

/-- Non-null pattern of the sInt8 destination cast table (sInt8_cast). -/
def sInt8_cast : List Bool :=
  [false, false, true, true, false, false, false, false, false, false, false, false]

/-- Non-null pattern of the uInt16 destination cast table (uInt16_cast). -/
def uInt16_cast : List Bool :=
  [false, false, true, true, true, true, false, false, false, false, false, false]

/-- Non-null pattern of the sInt16 destination cast table (sInt16_cast). -/
def sInt16_cast : List Bool :=
  [false, false, true, true, true, true, false, false, false, false, false, false]

/-- Non-null pattern of the uInt32 destination cast table (uInt32_cast). -/
def uInt32_cast : List Bool :=
  [false, false, true, true, true, true, true, true, false, false, false, false]

/-- Non-null pattern of the sInt32 destination cast table (sInt32_cast). -/
def sInt32_cast : List Bool :=
  [false, false, true, true, true, true, true, true, false, false, false, false]

/-- Non-null pattern of the Float32 destination cast table (Float32_cast). -/
def Float32_cast : List Bool :=
  [false, false, true, true, true, true, true, true, true, true, false, false]

/-- Non-null pattern of the Float64 destination cast table (Float64_cast). -/
def Float64_cast : List Bool :=
  [false, false, true, true, true, true, true, true, true, true, false, false]

/-- Non-null pattern of the Complex32 destination cast table (Complex32_cast). -/
def Complex32_cast : List Bool :=
  [false, false, true, true, true, true, true, true, true, true, true, true]

/-- Non-null pattern of the Complex64 destination cast table (Complex64_cast). -/
def Complex64_cast : List Bool :=
  [false, false, true, true, true, true, true, true, true, true, true, true]

/-- Rows of descr_table by destination type index; a row is the cast table of
that destination, indexed by source type.  Types outside 0..11 are never
constructed by the module. -/
def descr_cast_row (t : Int) : List Bool :=
  if t = 0 then String_cast else if t = 1 then Char8_cast
  else if t = 2 then uInt8_cast else if t = 3 then sInt8_cast
  else if t = 4 then uInt16_cast else if t = 5 then sInt16_cast
  else if t = 6 then uInt32_cast else if t = 7 then sInt32_cast
  else if t = 8 then Float32_cast else if t = 9 then Float64_cast
  else if t = 10 then Complex32_cast else if t = 11 then Complex64_cast
  else []

/-- The dispatch test i1.cast[i2.type] != 0 used by compare_record and
cast_record: true when the (destination, source) entry is a non-null
function pointer. -/
def castEntryI (dst src : Int) : Bool :=
  if 0 ≤ src ∧ src < 12 then (descr_cast_row dst).getD src.toNat false else false

/-- Byte widths of the integer catalog types; 0 for the non-integer types. -/
def intWidthN (t : Nat) : Nat :=
  if t = 2 ∨ t = 3 then 1 else if t = 4 ∨ t = 5 then 2
  else if t = 6 ∨ t = 7 then 4 else 0

/-- Modelled from the claim wording: the widening hierarchy of the cast matrix.
String and Char8 cast only from String and Char8; an integer width casts from
its own and every narrower integer width of both signednesses; Float32 and
Float64 cast from the two float types and from any integer width; Complex32
and Complex64 cast from the two complex types, the two float types, and any
integer width; no float or complex source casts into an integer destination
and nothing crosses between String or Char8 and the numeric types. -/
def spec_cast_from (dst src : Fin 12) : Bool :=
  if (dst : Nat) ≤ 1 then decide ((src : Nat) ≤ 1)
  else if (dst : Nat) ≤ 7 then
    decide (2 ≤ (src : Nat) ∧ (src : Nat) ≤ 7 ∧ intWidthN src ≤ intWidthN dst)
  else if (dst : Nat) ≤ 9 then
    decide (2 ≤ (src : Nat) ∧ (src : Nat) ≤ 9)
  else
    decide (2 ≤ (src : Nat) ∧ (src : Nat) ≤ 11)

/-! Dimen and Item structures of recordmodule.h.  A Dimen array is modelled as
a list whose entry 0 is the header (leng = number of axes, size = total byte
size; its start, stop and step slots are reused by the module as bookkeeping,
stop holding the index of the outermost valid axis).  An Item array likewise
has a header at index 0 (leng = number of fields, size = record byte size).
The cast, get and set function pointers of an Item are fully determined by its
type slot through descr_table, so they are not stored. -/

structure Dimen where
  start : Int
  stop : Int
  step : Int
  leng : Int
  size : Int
  flag : Bool
deriving DecidableEq

structure Item where
  leng : Int
  type : Int
  size : Int
  swap : Bool
deriving DecidableEq

/-- Array indexing d[k] of a Dimen array; indices outside the allocation are
never used by the module. -/
def dnth (d : List Dimen) (k : Int) : Dimen :=
  if 0 ≤ k then d.getD k.toNat ⟨0, 0, 0, 0, 0, false⟩ else ⟨0, 0, 0, 0, 0, false⟩

/-- Array update d[k] of a Dimen array. -/
def dset (d : List Dimen) (k : Int) (a : Dimen) : List Dimen :=
  if 0 ≤ k then d.set k.toNat a else d

/-- Array indexing i[k] of an Item array. -/
def inth (i : List Item) (k : Int) : Item :=
  if 0 ≤ k then i.getD k.toNat ⟨0, 0, 0, false⟩ else ⟨0, 0, 0, false⟩

/-- Iteration count of the slice loop
for (j = start; step < 0 ? j > stop : j < stop; j += step).
The fuel argument bounds the number of iterations; every caller passes a fuel
that exceeds the true count whenever step is nonzero.  When step = 0 and the
index is inside the range the C loop never terminates, so no behaviour is
modelled for it. -/
def loopLen : Nat → Int → Int → Int → Nat
  | 0, _, _, _ => 0
  | fuel+1, j, stop, step =>
    if (if step < 0 then stop < j else j < stop) then
      loopLen fuel (j + step) stop step + 1
    else 0

/-- dimen_length: length of dimension k. -/
def dimen_length (d : List Dimen) (k : Int) : Nat :=
  loopLen (((dnth d k).stop - (dnth d k).start).natAbs + 1)
    (dnth d k).start (dnth d k).stop (dnth d k).step

/-- get_valid_dimens: the indices (ascending, starting at axis 1) of the axes
whose expanded flag is set.  The C function returns this list prefixed with
its length. -/
def valid_dimens (d : List Dimen) : List Nat :=
  (List.range' 1 (dnth d 0).leng.toNat).filter (fun j => (dnth d j).flag)

/-- Item-axis pair walk of compare_record and cast_record: the list of
(destination type, source type) pairs visited by
for (j1 = start1, j2 = start2; both in range; j1 += step1, j2 += step2),
reading i1[j1+1].type and i2[j2+1].type.  Fuel as in loopLen. -/
def pairTypes :
    Nat → Int → Int → Int → Int → Int → Int → List Item → List Item →
    List (Int × Int)
  | 0, _, _, _, _, _, _, _, _ => []
  | fuel+1, j1, stop1, step1, j2, stop2, step2, i1, i2 =>
    if (if step1 < 0 then stop1 < j1 else j1 < stop1) ∧
       (if step2 < 0 then stop2 < j2 else j2 < stop2) then
      ((inth i1 (j1 + 1)).type, (inth i2 (j2 + 1)).type) ::
        pairTypes fuel (j1 + step1) stop1 step1 (j2 + step2) stop2 step2 i1 i2
    else []

/-- The (destination, source) type pairs compared along the item axes of two
views, taken from d1[1] and d2[1]. -/
def itemPairs (d1 : List Dimen) (i1 : List Item) (d2 : List Dimen)
    (i2 : List Item) : List (Int × Int) :=
  pairTypes (((dnth d1 1).stop - (dnth d1 1).start).natAbs + 1)
    (dnth d1 1).start (dnth d1 1).stop (dnth d1 1).step
    (dnth d2 1).start (dnth d2 1).stop (dnth d2 1).step i1 i2

/-- compare_record: shape and cast compatibility check of the Cast Engine.
First the counts of valid (expanded) axes are compared, then the paired axis
lengths, then every paired item position must have a non-null cast entry.
All three failures raise the single module error object record.error; only
the message differs. -/
def compare_record (d1 : List Dimen) (i1 : List Item) (d2 : List Dimen)
    (i2 : List Item) : Except String Unit :=
  if (valid_dimens d1).length ≠ (valid_dimens d2).length then
    .error "array shapes are not equal"
  else if ((valid_dimens d1).zip (valid_dimens d2)).any
      (fun p => decide (dimen_length d1 (p.1 : Int) ≠ dimen_length d2 (p.2 : Int))) then
    .error "unequal sequence lengths"
  else if (itemPairs d1 i1 d2 i2).any (fun p => !castEntryI p.1 p.2) then
    .error "cannot cast items"
  else .ok ()

/-! Format string functions. -/

/-- skip_space: skip blanks in the format string. -/
def skip_space : List Char → List Char
  | [] => []
  | c :: rest => if c = ' ' then skip_space rest else c :: rest

/-- format_swap on a little-endian host: the swap flag is set exactly for big
and network byte order; native and little give 0. -/
def format_swap (endian : Char) : Bool :=
  endian = '>' ∨ endian = '!'

/-- format_endian: strip a leading endian code, defaulting to native. -/
def format_endian : List Char → Char × List Char
  | [] => ('=', [])
  | c :: rest =>
    if c = '<' ∨ c = '>' ∨ c = '!' ∨ c = '=' then (c, rest) else ('=', c :: rest)

/-- type_check: compare the head of the format string with a catalog type code,
succeeding as soon as the format hits a blank, a comma or its end.  The C
version walks two nul-terminated strings; an exhausted side reads as the nul
character here. -/
def type_check : List Char → List Char → Bool
  | f0 :: frest, d0 :: drest =>
    if f0 = d0 then
      (match frest with
       | [] => true
       | c :: _ =>
         if c = ' ' then true else if c = ',' then true
         else type_check frest drest)
    else false
  | [], [] => true
  | _, _ => false

/-- Textual type codes of descr_table, by type index. -/
def reprOfI (t : Int) : List Char :=
  if t = 0 then ['s'] else if t = 1 then ['c', '8']
  else if t = 2 then ['I', '8'] else if t = 3 then ['i', '8']
  else if t = 4 then ['I', '1', '6'] else if t = 5 then ['i', '1', '6']
  else if t = 6 then ['I', '3', '2'] else if t = 7 then ['i', '3', '2']
  else if t = 8 then ['f', '3', '2'] else if t = 9 then ['f', '6', '4']
  else if t = 10 then ['F', '3', '2'] else if t = 11 then ['F', '6', '4']
  else []

/-- Fixed byte widths of descr_table (the String entry holds sizeof(char);
a String field gets its width from the format string instead). -/
def descrSizeI (t : Int) : Int :=
  if t = 0 then 1 else if t = 1 then 1
  else if t = 2 then 1 else if t = 3 then 1
  else if t = 4 then 2 else if t = 5 then 2
  else if t = 6 then 4 else if t = 7 then 4
  else if t = 8 then 4 else if t = 9 then 8
  else if t = 10 then 8 else if t = 11 then 16
  else 0

/-- The candidate order of the scan in format_type_and_size: from the most
specific catalog entry down to the least. -/
def descr_indices : List Int := [11, 10, 9, 8, 7, 6, 5, 4, 3, 2, 1, 0]

/-- Head of a character list, reading an exhausted C string as nul. -/
def headCharD (f : List Char) : Char := f.headD (Char.ofNat 0)

/-- The descending scan of format_type_and_size: the first index whose code
passes type_check wins; index 0 (String) also matches on its first character
alone. -/
def scanType : List Int → List Char → Option Int
  | [], _ => none
  | i :: rest, f =>
    if type_check f (reprOfI i) ∨ (i ≤ 0 ∧ headCharD f = headCharD (reprOfI i)) then
      some i
    else scanType rest f

/-- Digit loop of format_type_and_size:
while (0 <= (c = *++fmt) && c <= 9) cnt = 10*cnt + (c - 48). -/
def takeDigits : Int → List Char → Int × List Char
  | cnt, [] => (cnt, [])
  | cnt, c :: rest =>
    if '0' ≤ c ∧ c ≤ '9' then takeDigits (10 * cnt + ((c.toNat : Int) - 48)) rest
    else (cnt, c :: rest)

/-- format_type_and_size: identify the type code at the head of the format
string and the field byte size; the size is the parsed decimal count for a
String field and the catalog width otherwise.  Returns none (a format error)
when no catalog code matches. -/
def format_type_and_size (f : List Char) : Option (Int × Int × List Char) :=
  match scanType descr_indices f with
  | none => none
  | some t =>
    match f with
    | [] => none
    | _ :: rest =>
      let d := takeDigits 0 rest
      some (t, if t = 0 then d.1 else descrSizeI t, d.2)

/-- Format_Next: advance to just past the next comma, or to the end. -/
def format_next : List Char → List Char
  | [] => []
  | c :: rest => if c = ',' then rest else format_next rest

/-- Field-count loop of Format_StringLength, fuelled by the string length. -/
def strlengthF : Nat → List Char → Nat
  | 0, _ => 0
  | _+1, [] => 0
  | fuel+1, c :: rest => 1 + strlengthF fuel (format_next (c :: rest))

/-- Format_StringLength: the number of comma-separated fields. -/
def Format_StringLength (f : List Char) : Nat := strlengthF (f.length + 1) f

/-- Field loop of item_FromFormat, fuelled by the string length: each step
skips blanks, parses one type code site, and advances past the next comma.
The running offset is the accumulated record size. -/
def parseFieldsF : Nat → Int → Bool → List Char → Option (List Item)
  | 0, _, _, _ => some []
  | _+1, _, _, [] => some []
  | fuel+1, off, sw, c :: rest =>
    match format_type_and_size (skip_space (c :: rest)) with
    | none => none
    | some (t, sz, rest2) =>
      match parseFieldsF fuel (off + sz) sw (format_next rest2) with
      | none => none
      | some tail => some (⟨off, t, sz, sw⟩ :: tail)

/-- Sum of the field sizes, the record byte size accumulated in item[0].size. -/
def sumSizes (l : List Item) : Int := l.foldl (fun a it => a + it.size) 0

/-- item_FromFormat: build the Item array (header at index 0) from an already
endian-stripped format string.  An empty format or an unmatched type code is
an error (none).  The type and swap slots of the header are never initialized
by the C code; they are fixed to 0 and false here. -/
def item_FromFormat (endian : Char) (format : List Char) : Option (List Item) :=
  if Format_StringLength format = 0 then none
  else
    match parseFieldsF (format.length + 1) 0 (format_swap endian) format with
    | none => none
    | some fields => some (⟨(Format_StringLength format : Int), 0, sumSizes fields, false⟩ :: fields)

/-- The format-string entry path of record_new and record_setattr: skip
blanks, strip the endian code, then build the Item array. -/
def from_format (f : List Char) : Option (Char × List Item) :=
  let f1 := skip_space f
  let e := (format_endian f1).1
  match item_FromFormat e (format_endian f1).2 with
  | none => none
  | some its => some (e, its)

/-- Decimal digit characters, as printed by sprintf with the d conversion. -/
def digitChar : Nat → Char
  | 0 => '0' | 1 => '1' | 2 => '2' | 3 => '3' | 4 => '4'
  | 5 => '5' | 6 => '6' | 7 => '7' | 8 => '8' | _ => '9'

/-- Decimal digits of a natural number, most significant first. -/
def natDigits (n : Nat) : List Char :=
  if n < 10 then [digitChar n] else natDigits (n / 10) ++ [digitChar (n % 10)]
termination_by n
decreasing_by exact Nat.div_lt_self (by omega) (by omega)

/-- Output of one item_asformat iteration for one field: the type code,
followed by the decimal byte width when the code printed was the String
code s. -/
def fieldCanonTS (t sz : Int) : List Char :=
  reprOfI t ++ (if t = 0 then natDigits sz.toNat else [])

/-- Loop of item_asformat over the item axis: for each visited position the
type code (plus width for String) is appended, and a comma separator is
appended while j < stop - step.  Fuel as in loopLen. -/
def asfLoopF : Nat → Int → Int → Int → List Item → List Char
  | 0, _, _, _, _ => []
  | fuel+1, j, stop, step, items =>
    if (if step < 0 then stop < j else j < stop) then
      fieldCanonTS (inth items (j + 1)).type (inth items (j + 1)).size ++
        (if j < stop - step then [','] else []) ++
        asfLoopF fuel (j + step) stop step items
    else []

/-- item_asformat: the endian character followed by the codes of the fields
selected by the item axis d[1]. -/
def item_asformat (d : List Dimen) (endian : Char) (items : List Item) :
    List Char :=
  endian ::
    asfLoopF (((dnth d 1).stop - (dnth d 1).start).natAbs + 1)
      (dnth d 1).start (dnth d 1).stop (dnth d 1).step items

/-- The Dimen array record_new builds for a one-axis record of n fields: the
header (one axis, stop = 1) and the item axis with start 0, stop n, step 1. -/
def fresh_dimen_for (n isize : Int) : List Dimen :=
  [⟨0, 1, 1, 1, isize, true⟩, ⟨0, n, 1, n, 0, true⟩]

/-- The format attribute of a freshly constructed record: record_getattr
composes item_asformat with the construction-time Dimen array. -/
def record_format (its : List Item) (e : Char) : List Char :=
  item_asformat (fresh_dimen_for (inth its 0).leng (inth its 0).size) e its

/-- Modelled from the spec wording of the canonical spelling: the endian
character followed by the comma-separated type codes of the fields, with the
decimal byte width appended for String fields. -/
def canonicalFields : List Item → List Char
  | [] => []
  | [it] => fieldCanonTS it.type it.size
  | it :: rest => fieldCanonTS it.type it.size ++ ',' :: canonicalFields rest

/-- Canonical spelling of a whole format: endian character then the fields. -/
def canonicalFmt (e : Char) (fields : List Item) : List Char :=
  e :: canonicalFields fields

/-- A field requested from the catalog: a type index and a byte size. -/
structure FieldSpec where
  ftype : Int
  fsize : Int
deriving DecidableEq

/-- A well-formed field request: a catalog type, whose size is the catalog
width, or a String of any nonnegative width. -/
def FieldSpecWF (s : FieldSpec) : Prop :=
  0 ≤ s.ftype ∧ s.ftype ≤ 11 ∧
    (if s.ftype = 0 then 0 ≤ s.fsize else s.fsize = descrSizeI s.ftype)

/-- The fields item_FromFormat produces for the given requests: offsets
accumulate left to right with no padding, the swap flag is shared. -/
def buildFields (sw : Bool) (off : Int) : List FieldSpec → List Item
  | [] => []
  | s :: rest => ⟨off, s.ftype, s.fsize, sw⟩ :: buildFields sw (off + s.fsize) rest

/-- The full Item array (header included) for the given field requests. -/
def buildItems (e : Char) (specs : List FieldSpec) : List Item :=
  ⟨(specs.length : Int), 0, sumSizes (buildFields (format_swap e) 0 specs), false⟩ ::
    buildFields (format_swap e) 0 specs

/-! Sequence and mapping protocol pieces needed by the claims. -/

/-- set_index: bind dimension k to one element; out of range is an index
error (none).  The expanded flag is cleared permanently. -/
def set_index (d : List Dimen) (k : Int) (ndx : Int) : Option (List Dimen) :=
  if ndx < 0 ∨ (dimen_length d k : Int) ≤ ndx then none
  else some (dset d k ⟨ndx, ndx + 1, 1, (dnth d k).leng, (dnth d k).size, false⟩)

/-- set_seq_slice: clamp a sequence slice of dimension k to [0, stop] and
store it; the expanded flag is untouched. -/
def set_seq_slice (d : List Dimen) (k : Int) (lo hi : Int) : List Dimen :=
  let leng := (dnth d k).stop
  let lo2 := if lo < 0 then 0 else if leng < lo then leng else lo
  let hi2 := if hi < 0 then 0 else if leng < hi then leng else hi
  let hi3 := if hi2 < lo2 then lo2 else hi2
  dset d k ⟨lo2, hi3, (dnth d k).step, (dnth d k).leng, (dnth d k).size, (dnth d k).flag⟩

/-- record_length: the length of the dimension the header stop slot points
at.  The comment in the C source adds: return 1 for 0-D arrays because a[0]
works. -/
def record_length (d : List Dimen) : Nat := dimen_length d (dnth d 0).stop

/-- The Dimen manipulation of record_getseqitem: clone, bind the axis the
header points at to one index, and point the header one axis further in.
Returns none on an index error. -/
def record_getseqitem_dim (d : List Dimen) (ndx : Int) : Option (List Dimen) :=
  match set_index d (dnth d 0).stop ndx with
  | none => none
  | some d1 =>
    some (dset d1 0 ⟨(dnth d1 0).start, (dnth d1 0).stop - 1, (dnth d1 0).step,
      (dnth d1 0).leng, (dnth d1 0).size, (dnth d1 0).flag⟩)

/-- The Dimen array of the two-axis record record((1, 2)) builds: one outer
header (stop = 1), and an item axis of two SInt32 fields (record size 8). -/
def demo_dimen : List Dimen := [⟨0, 1, 1, 1, 8, true⟩, ⟨0, 2, 1, 2, 0, true⟩]

/-! Record views.  A RecordObject holds its endian tag, pointers to its
exclusively owned Dimen and Item arrays, a byte offset, and a reference to the
shared data buffer.  Pointer identity is modelled by numeric ids handed out by
a monotone allocator, so freshness of the cloned structures is expressible;
the pointed-at values are carried alongside. -/

structure RecView where
  endn : Char
  dimnId : Nat
  itemId : Nat
  dataId : Nat
  pntr : Nat
  dimn : List Dimen
  item : List Item
deriving DecidableEq

/-- item_FromItem field loop: types and sizes are copied, offsets are
re-accumulated, the swap flag is recomputed for the (possibly new) endian. -/
def cloneFields (sw : Bool) (off : Int) : List Item → List Item
  | [] => []
  | it :: rest => ⟨off, it.type, it.size, sw⟩ :: cloneFields sw (off + it.size) rest

/-- item_FromItem: a fresh copy of an Item array with swap flags re-derived
from the given endian. -/
def item_FromItem (i1 : List Item) (endian : Char) : List Item :=
  ⟨(inth i1 0).leng, 0,
    sumSizes (cloneFields (format_swap endian) 0 (i1.drop 1)), false⟩ ::
    cloneFields (format_swap endian) 0 (i1.drop 1)

/-- record_getseqslice: clone the Dimen array (into fresh storage), slice the
axis the header points at, and when at least the header flag is still set wrap
the result in a new RecordObject sharing this->data and this->pntr, with a
freshly cloned Item array.  The allocator counter hands out the two fresh ids.
The collapsed branch marshals a scalar instead of building a view (none
here). -/
def record_getseqslice (v : RecView) (lo hi : Int) (alloc : Nat) :
    Option (RecView × Nat) :=
  let d1 := set_seq_slice v.dimn (dnth v.dimn 0).stop lo hi
  if (dnth d1 0).flag then
    some (⟨v.endn, alloc, alloc + 1, v.dataId, v.pntr, d1,
      item_FromItem v.item v.endn⟩, alloc + 2)
  else none

/-- The byte store: contents of every buffer object, addressed by buffer id
and byte position. -/
def ByteStore : Type := Nat → Nat → Nat

/-- Write one byte through a view: the buffer object it references is updated
at the resolved position. -/
def bufWrite (σ : ByteStore) (id pos b : Nat) : ByteStore :=
  fun i q => if i = id ∧ q = pos then b else σ i q

/-- Read one byte through a view. -/
def bufRead (σ : ByteStore) (id pos : Nat) : Nat := σ id pos

/-! Construction from a string buffer (record_fromstring). -/

/-- Error object taxonomy of the module boundary: the builtin ValueError
versus the module error object record.error. -/
inductive RErr where
  | valueError (msg : String)
  | recordError (msg : String)
deriving DecidableEq

/-- Result of record_fromstring: the endian tag, the Item array and the
record count; the Dimen array is then built from the shape
(field count, count) and the string buffer itself becomes the data. -/
structure FromStringRes where
  endn : Char
  items : List Item
  count : Int
deriving DecidableEq

/-- The layout parse of record_fromstring: an explicit format goes through
the endian strip, an absent one uses the one-character format c, which the
catalog scan resolves to a single 1-byte Char8 field. -/
def fromstring_parse (format : Option (List Char)) : Option (Char × List Item) :=
  match format with
  | some f => from_format f
  | none => from_format ['c']

/-- record_fromstring: n is the byte length of the string object, count the
optional record count (the C default is the sentinel -1).  When count is
absent the string length must be an exact multiple of the record size and the
count becomes the quotient; an explicit count requires
n >= count * record size. -/
def record_fromstring (n : Int) (count : Int) (format : Option (List Char)) :
    Except RErr FromStringRes :=
  match fromstring_parse format with
  | none => .error (.recordError "bad format type")
  | some (e, its) =>
    let isize := (inth its 0).size
    if count < 0 then
      if n % isize ≠ 0 then
        .error (.valueError "string size not multiple of record size")
      else .ok ⟨e, its, n / isize⟩
    else
      if n < count * isize then
        .error (.recordError "string size is less than requested size")
      else .ok ⟨e, its, count⟩

/-! Shape and type inference (get_array_shape) and the per-value model. -/

/-- A marshaled Python value at the construction and set boundary. -/
inductive PyObj where
  | pint (n : Int)
  | pfloat
  | pcomplex
  | pstr (s : List Char)
  | pother
deriving DecidableEq

/-- One step of the per-position type promotion in the tuple branch of
get_array_shape.  A String field is recorded as the negated width; a numeric
promotion only fires while the recorded type is a nonnegative index below the
promoted one. -/
def promote_one (t : Int) (v : PyObj) : Int :=
  match v with
  | .pstr s => if -(s.length : Int) < t then -(s.length : Int) else t
  | .pint _ => if 0 ≤ t ∧ t < 7 then 7 else t
  | .pfloat => if 0 ≤ t ∧ t < 9 then 9 else t
  | .pcomplex => if 0 ≤ t ∧ t < 11 then 11 else t
  | .pother => t

/-- The inferred encoded type of one field position: the promotion folded
over the values observed there, starting from the initial 0 the shape tuple
is filled with. -/
def infer_type (vs : List PyObj) : Int := List.foldl promote_one 0 vs

/-- The format fragment record_new emits for one inferred field type: a
negative value is a String of that width, otherwise only the exact indices
SInt32, Float64 and Complex64 are accepted. -/
def fmt_of_inferred (t : Int) : Except String (List Char) :=
  if t < 0 then .ok ('s' :: natDigits (-t).toNat)
  else if t = 7 then .ok ['i', '3', '2']
  else if t = 9 then .ok ['f', '6', '4']
  else if t = 11 then .ok ['F', '6', '4']
  else .error "Unkown format type"

/-- String test of one observed value. -/
def isStrV : PyObj → Bool
  | .pstr _ => true
  | _ => false

/-- Integer test of one observed value. -/
def isIntV : PyObj → Bool
  | .pint _ => true
  | _ => false

/-- Float test of one observed value. -/
def isFloatV : PyObj → Bool
  | .pfloat => true
  | _ => false

/-- Complex test of one observed value. -/
def isComplexV : PyObj → Bool
  | .pcomplex => true
  | _ => false

/-- Widest observed string width of a value list. -/
def maxStrWidth (vs : List PyObj) : Nat :=
  List.foldl (fun a v => match v with
    | PyObj.pstr s => max a s.length
    | _ => a) 0 vs

/-- Modelled from the claim wording: promotion with the fixed precedence
Complex64 over Float64 over SInt32 over String, widest string width winning,
and SInt32 as the default when none of the four kinds is observed. -/
def claim_promote (vs : List PyObj) : Int :=
  if vs.any isComplexV then 11
  else if vs.any isFloatV then 9
  else if vs.any isIntV then 7
  else if vs.any isStrV then -(maxStrWidth vs : Int)
  else 7

/-- What the code actually computes (for positive string widths): any
observed string forces a String field of the widest observed width, numerics
promote along SInt32, Float64, Complex64 below that, and a position that
observes none of the kinds keeps the initial 0. -/
def code_promote (vs : List PyObj) : Int :=
  if vs.any isStrV then -(maxStrWidth vs : Int)
  else if vs.any isComplexV then 11
  else if vs.any isFloatV then 9
  else if vs.any isIntV then 7
  else 0

/-! Per-field set codecs (Value Marshaling). -/

/-- PyInt_AsLong: a non-integer argument signals a type error and returns the
sentinel -1; the numeric set codecs ignore that signal. -/
def toLongC : PyObj → Int
  | .pint n => n
  | _ => -1

/-- Little-endian byte list of width w of a nonnegative value. -/
def leBytes : Nat → Nat → List Nat
  | 0, _ => []
  | w+1, u => (u % 256) :: leBytes w (u / 256)

/-- Bytes an integer set codec stores for value v: the two's-complement
truncation to the field width, in host (little-endian) order, reversed when
the swap flag is set. -/
def intBytes (width : Nat) (v : Int) (swap : Bool) : List Nat :=
  let bs := leBytes width (v.emod (2 ^ (8 * width))).toNat
  if swap then bs.reverse else bs

/-- Write a byte list into the buffer at the given position. -/
def writeList : List Nat → Nat → List Nat → List Nat
  | buf, _, [] => buf
  | buf, p, b :: bs => writeList (buf.set p b) (p + 1) bs

/-- Common body of the eight integer set codecs (sInt8_set .. uInt32_set):
convert with PyInt_AsLong, store the truncated bytes at the field offset, and
return 0 unconditionally - also when the conversion failed, in which case the
bytes of the sentinel are stored. -/
def intSet (width : Nat) (it : Item) (buf : List Nat) (ob : PyObj) :
    Int × List Nat :=
  (0, writeList buf it.leng.toNat (intBytes width (toLongC ob) it.swap))

/-- sInt8_set. -/
def sInt8_set (it : Item) (buf : List Nat) (ob : PyObj) : Int × List Nat :=
  intSet 1 it buf ob

/-- sInt16_set. -/
def sInt16_set (it : Item) (buf : List Nat) (ob : PyObj) : Int × List Nat :=
  intSet 2 it buf ob

/-- sInt32_set. -/
def sInt32_set (it : Item) (buf : List Nat) (ob : PyObj) : Int × List Nat :=
  intSet 4 it buf ob

/-- Field bytes String_set stores: the string characters up to the field
width, space padded. -/
def strFieldBytes (size : Nat) (s : List Char) : List Nat :=
  (s.take size).map Char.toNat ++
    List.replicate (size - (s.take size).length) 32

/-- String_set: a non-string argument makes PyString_AsString fail, and the
codec returns -1 before touching the buffer; a string is copied and space
padded and the codec returns 0. -/
def String_set (it : Item) (buf : List Nat) (ob : PyObj) : Int × List Nat :=
  match ob with
  | .pstr s => (0, writeList buf it.leng.toNat (strFieldBytes it.size.toNat s))
  | _ => (-1, buf)

/-- Char8_set: same body as String_set. -/
def Char8_set (it : Item) (buf : List Nat) (ob : PyObj) : Int × List Nat :=
  match ob with
  | .pstr s => (0, writeList buf it.leng.toNat (strFieldBytes it.size.toNat s))
  | _ => (-1, buf)

/-- Return code of the set codec of each catalog type, read off the C function
bodies: String_set and Char8_set return -1 exactly when the argument has no
string representation; every other codec ends in an unconditional return 0,
whatever the argument (sInt8_set through uInt32_set, Float32_set, Float64_set,
Complex32_set, Complex64_set all convert into a local and store it without
inspecting the conversion for failure). -/
def set_returns (t : Int) (ob : PyObj) : Int :=
  if t = 0 ∨ t = 1 then (if isStrV ob then 0 else -1) else 0

/-- The suffixes of the format string at which the field loop of
item_FromFormat parses a type code site, fuelled like strlengthF. -/
def fieldStartsF : Nat → List Char → List (List Char)
  | 0, _ => []
  | _+1, [] => []
  | fuel+1, c :: rest => (c :: rest) :: fieldStartsF fuel (format_next (c :: rest))

/-- The field start positions of a whole format string. -/
def field_starts (f : List Char) : List (List Char) :=
  fieldStartsF (f.length + 1) f

/-! Concrete inputs used by the witnesses and counterexamples. -/

/-- One-axis Dimen array of a single record of one field of size 4. -/
def cdemo1 : List Dimen := [⟨0, 1, 1, 1, 4, true⟩, ⟨0, 1, 1, 1, 0, true⟩]

/-- The same array with the item axis collapsed: zero expanded axes. -/
def cdemo2 : List Dimen := [⟨0, 1, 1, 1, 4, true⟩, ⟨0, 1, 1, 1, 0, false⟩]

/-- One-axis Dimen array of a single record of two fields. -/
def cdemo3 : List Dimen := [⟨0, 1, 1, 1, 8, true⟩, ⟨0, 2, 1, 2, 0, true⟩]

/-- Item array of one SInt32 field. -/
def idemo : List Item := [⟨1, 0, 4, false⟩, ⟨0, 7, 4, false⟩]

/-- Item array of two SInt32 fields. -/
def i2demo : List Item := [⟨2, 0, 8, false⟩, ⟨0, 7, 4, false⟩, ⟨4, 7, 4, false⟩]

/-- One-axis view of a single 4-byte String field (format s4). -/
def sdemo_dimen : List Dimen := [⟨0, 1, 1, 1, 4, true⟩, ⟨0, 1, 1, 1, 0, true⟩]

/-- Item array of one String field of width 4. -/
def sdemo_items : List Item := [⟨1, 0, 4, false⟩, ⟨0, 0, 4, false⟩]

/-- One-axis view of a single Float64 field (format f64). -/
def fdemo_dimen : List Dimen := [⟨0, 1, 1, 1, 8, true⟩, ⟨0, 1, 1, 1, 0, true⟩]

/-- Item array of one Float64 field. -/
def fdemo_items : List Item := [⟨1, 0, 8, false⟩, ⟨0, 9, 8, false⟩]

/-- The Dimen array record_getseqitem derives from demo_dimen at index 0:
the item axis is bound and collapsed and the header stop drops to 0. -/
def demo_dimen2 : List Dimen := [⟨0, 0, 1, 1, 8, true⟩, ⟨0, 1, 1, 2, 0, false⟩]

/-- A two-axis record view (two records of two SInt32 fields), ids 0, 1 for
its own structures, buffer id 2, allocator at 3. -/
def demo_view : RecView :=
  ⟨'=', 0, 1, 2, 0,
   [⟨0, 2, 1, 2, 16, true⟩, ⟨0, 2, 1, 2, 0, true⟩, ⟨0, 2, 1, 2, 8, true⟩],
   i2demo⟩

/-- The view record_getseqslice derives from demo_view for the slice [0:1]. -/
def demo_view2 : RecView :=
  ⟨'=', 3, 4, 2, 0,
   [⟨0, 2, 1, 2, 16, true⟩, ⟨0, 2, 1, 2, 0, true⟩, ⟨0, 1, 1, 2, 8, true⟩],
   i2demo⟩

/-! Theorems. -/

/-- C6: the per-destination-type cast tables contain non-null entries exactly
along the stated widening hierarchy: String and Char8 each cast only from
String and Char8; each integer width casts from itself (both signednesses)
and all narrower integer widths of both signednesses; Float32 and Float64
cast from the float types and any integer width; Complex32 and Complex64 cast
from the complex types, the float types and any integer width; there is no
entry from a float or complex type into any integer type, nor between String
or Char8 and any numeric type. -/
theorem C6_cast_table_hierarchy :
    ∀ dst src : Fin 12,
      castEntryI ((dst : Nat) : Int) ((src : Nat) : Int) = spec_cast_from dst src := by
  decide

/-- C4 evidence of the code bug: the claim (and the comment inside
record_length) says len of a view with zero expanded axes is 1, but the
0-dimensional view reached by sequence-item indexing the one-axis view of
record((1, 2)) has header stop 0 and record_length evaluates to 0 on it,
while the parent one-axis view correctly reports its item-axis length 2. -/
theorem C4_len_zero_dim_evaluates_to_zero :
    record_length demo_dimen = 2 ∧
    record_getseqitem_dim demo_dimen 0 = some demo_dimen2 ∧
    (dnth demo_dimen2 0).flag = true ∧
    valid_dimens demo_dimen2 = [] ∧
    record_length demo_dimen2 = 0 := by
  decide

/-- C10: every numeric set codec reports success (returns 0) for any input
value, including a non-convertible one, and still performs its byte store
with the bytes of the failed conversion sentinel; only the String and Char8
set codecs can report failure (-1, leaving the buffer untouched). -/
theorem C10_set_codecs :
    (∀ t : Int, 2 ≤ t → t ≤ 11 → ∀ ob : PyObj, set_returns t ob = 0) ∧
    (∀ ob : PyObj, isStrV ob = false →
      set_returns 0 ob = -1 ∧ set_returns 1 ob = -1) ∧
    (∀ (it : Item) (buf : List Nat) (ob : PyObj),
      (sInt16_set it buf ob).1 = 0 ∧
      (sInt16_set it buf ob).2 =
        writeList buf it.leng.toNat (intBytes 2 (toLongC ob) it.swap)) ∧
    (∀ (it : Item) (buf : List Nat),
      sInt16_set it buf PyObj.pother =
        (0, writeList buf it.leng.toNat (intBytes 2 (-1) it.swap))) ∧
    (∀ (it : Item) (buf : List Nat),
      (String_set it buf PyObj.pother).1 = -1 ∧
      (String_set it buf PyObj.pother).2 = buf ∧
      (Char8_set it buf PyObj.pother).1 = -1) := by
  refine ⟨?_, ?_, ?_, ?_, ?_⟩
  · intro t h2 h11 ob
    unfold set_returns
    rw [if_neg (by omega)]
  · intro ob h
    constructor <;> simp [set_returns, h]
  · intro it buf ob
    exact ⟨rfl, rfl⟩
  · intro it buf
    rfl
  · intro it buf
    exact ⟨rfl, rfl, rfl⟩

/-- C10 witness at concrete inputs: the Float64 codec reports success on a
non-convertible value, the String codec reports failure, and the sInt16 codec
overwrites a 2-byte field with the bytes 255, 255 of the sentinel -1. -/
theorem C10_set_codecs_witness :
    set_returns 9 PyObj.pother = 0 ∧
    set_returns 0 PyObj.pother = -1 ∧
    sInt16_set ⟨0, 5, 2, false⟩ [7, 7] PyObj.pother =
      (0, writeList [7, 7] 0 (intBytes 2 (-1) false)) ∧
    writeList [7, 7] 0 (intBytes 2 (-1) false) = [255, 255] :=
  ⟨C10_set_codecs.1 9 (by omega) (by omega) PyObj.pother,
   (C10_set_codecs.2.1 PyObj.pother rfl).1,
   C10_set_codecs.2.2.2.1 ⟨0, 5, 2, false⟩ [7, 7],
   by decide⟩

/-- C2: a slice-derived view shares the byte buffer of its parent (same
buffer id and byte offset, so a byte written through the derived view is read
back through the parent), while its Dimen and Item structures are freshly
allocated, never the pointers of the parent. -/
theorem C2_slice_aliasing :
    ∀ (v : RecView) (lo hi : Int) (alloc : Nat) (v2 : RecView) (alloc2 : Nat),
      v.dimnId < alloc → v.itemId < alloc →
      record_getseqslice v lo hi alloc = some (v2, alloc2) →
      v2.dataId = v.dataId ∧ v2.pntr = v.pntr ∧
      v2.dimnId ≠ v.dimnId ∧ v2.itemId ≠ v.itemId ∧
      (∀ (σ : ByteStore) (p b : Nat),
        bufRead (bufWrite σ v2.dataId p b) v.dataId p = b) := by
  intro v lo hi alloc v2 alloc2 hd hs h
  simp only [record_getseqslice] at h
  split at h
  · rw [Option.some.injEq, Prod.mk.injEq] at h
    obtain ⟨hv, -⟩ := h
    subst hv
    refine ⟨rfl, rfl, by simp; omega, by simp; omega, ?_⟩
    intro σ p b
    simp [bufRead, bufWrite]
  · exact absurd h (by simp)

/-- C2 witness: slicing the concrete two-axis view demo_view with [0:1] at
allocator position 3 yields demo_view2, which shares buffer id 2 and offset 0
with its parent but has ids 3 and 4 for its own cloned structures, and a byte
written through it is read back through the parent. -/
theorem C2_slice_aliasing_witness :
    demo_view2.dataId = demo_view.dataId ∧ demo_view2.pntr = demo_view.pntr ∧
    demo_view2.dimnId ≠ demo_view.dimnId ∧ demo_view2.itemId ≠ demo_view.itemId ∧
    (∀ (σ : ByteStore) (p b : Nat),
      bufRead (bufWrite σ demo_view2.dataId p b) demo_view.dataId p = b) :=
  C2_slice_aliasing demo_view 0 1 3 demo_view2 5 (by decide) (by decide) (by decide)

/-- C5 counterexample: at two views whose counts of expanded axes differ
(one versus zero), the code raises the message array shapes are not equal,
not the claimed unequal sequence lengths. -/
theorem C5_messages_counterexample :
    (valid_dimens cdemo1).length ≠ (valid_dimens cdemo2).length ∧
    compare_record cdemo1 idemo cdemo2 idemo = .error "array shapes are not equal" ∧
    ("array shapes are not equal" : String) ≠ "unequal sequence lengths" := by
  refine ⟨by decide, by rfl, by decide⟩

/-- C5 amended: the compatibility check raises the single module error object
record.error with message array shapes are not equal when the counts of
expanded axes differ, with message unequal sequence lengths when a pair of
corresponding expanded axes have different lengths (the transpose of the
claimed assignment of those two messages), and with message cannot cast items
when a (destination, source) field pair has no cast-table entry. -/
theorem C5_messages_amended :
    ∀ (d1 : List Dimen) (i1 : List Item) (d2 : List Dimen) (i2 : List Item),
      ((valid_dimens d1).length ≠ (valid_dimens d2).length →
        compare_record d1 i1 d2 i2 = .error "array shapes are not equal") ∧
      ((valid_dimens d1).length = (valid_dimens d2).length →
        (∃ p ∈ (valid_dimens d1).zip (valid_dimens d2),
          dimen_length d1 (p.1 : Int) ≠ dimen_length d2 (p.2 : Int)) →
        compare_record d1 i1 d2 i2 = .error "unequal sequence lengths") ∧
      ((valid_dimens d1).length = (valid_dimens d2).length →
        (∀ p ∈ (valid_dimens d1).zip (valid_dimens d2),
          dimen_length d1 (p.1 : Int) = dimen_length d2 (p.2 : Int)) →
        (∃ q ∈ itemPairs d1 i1 d2 i2, castEntryI q.1 q.2 = false) →
        compare_record d1 i1 d2 i2 = .error "cannot cast items") := by
  intro d1 i1 d2 i2
  refine ⟨?_, ?_, ?_⟩
  · intro h
    unfold compare_record
    rw [if_pos h]
  · intro h1 h2
    have hB : (((valid_dimens d1).zip (valid_dimens d2)).any
        (fun p => decide (dimen_length d1 (p.1 : Int) ≠ dimen_length d2 (p.2 : Int)))) = true := by
      obtain ⟨p, hp, hne⟩ := h2
      exact List.any_eq_true.mpr ⟨p, hp, by simpa using hne⟩
    unfold compare_record
    rw [if_neg (fun hc => hc h1), if_pos hB]
  · intro h1 h2 h3
    have hB : ¬ (((valid_dimens d1).zip (valid_dimens d2)).any
        (fun p => decide (dimen_length d1 (p.1 : Int) ≠ dimen_length d2 (p.2 : Int)))) = true := by
      intro hc
      obtain ⟨p, hp, hne⟩ := List.any_eq_true.mp hc
      have hne2 : dimen_length d1 (p.1 : Int) ≠ dimen_length d2 (p.2 : Int) := by
        simpa using hne
      exact hne2 (h2 p hp)
    have hC : ((itemPairs d1 i1 d2 i2).any (fun q => !castEntryI q.1 q.2)) = true := by
      obtain ⟨q, hq, hfq⟩ := h3
      exact List.any_eq_true.mpr ⟨q, hq, by simp [hfq]⟩
    unfold compare_record
    rw [if_neg (fun hc => hc h1), if_neg hB, if_pos hC]

/-- C5 amended witness: two one-axis views whose single expanded axes have
lengths 2 and 1 produce the message unequal sequence lengths. -/
theorem C5_messages_amended_witness :
    compare_record cdemo3 i2demo cdemo1 idemo = .error "unequal sequence lengths" :=
  (C5_messages_amended cdemo3 i2demo cdemo1 idemo).2.1 (by decide) (by decide)

/-- C1: for destination and source views whose shapes already match, the
compatibility gate of the cast operation (called by copy, tostring and
cross-view assignment before any byte is cast) succeeds exactly when every
paired item-axis position has a non-null cast-table entry for the
(destination type, source type) pair; every one of the 12 types casts from
itself, the String-from-Float64 entry is null, and casting an f64 source
field into an s4 destination field is rejected with the TypeError-class
message cannot cast items. -/
theorem C1_cast_matrix_gate :
    (∀ (d1 : List Dimen) (i1 : List Item) (d2 : List Dimen) (i2 : List Item),
      (valid_dimens d1).length = (valid_dimens d2).length →
      (∀ p ∈ (valid_dimens d1).zip (valid_dimens d2),
        dimen_length d1 (p.1 : Int) = dimen_length d2 (p.2 : Int)) →
      (compare_record d1 i1 d2 i2 = .ok () ↔
        ∀ q ∈ itemPairs d1 i1 d2 i2, castEntryI q.1 q.2 = true)) ∧
    (∀ t : Fin 12, castEntryI ((t : Nat) : Int) ((t : Nat) : Int) = true) ∧
    castEntryI 0 9 = false ∧
    compare_record sdemo_dimen sdemo_items fdemo_dimen fdemo_items =
      .error "cannot cast items" := by
  refine ⟨?_, by decide, by decide, by rfl⟩
  intro d1 i1 d2 i2 h1 h2
  have hB : ¬ (((valid_dimens d1).zip (valid_dimens d2)).any
      (fun p => decide (dimen_length d1 (p.1 : Int) ≠ dimen_length d2 (p.2 : Int)))) = true := by
    intro hc
    obtain ⟨p, hp, hne⟩ := List.any_eq_true.mp hc
    have hne2 : dimen_length d1 (p.1 : Int) ≠ dimen_length d2 (p.2 : Int) := by
      simpa using hne
    exact hne2 (h2 p hp)
  unfold compare_record
  rw [if_neg (fun hc => hc h1), if_neg hB]
  by_cases h3 : ((itemPairs d1 i1 d2 i2).any (fun q => !castEntryI q.1 q.2)) = true
  · rw [if_pos h3]
    constructor
    · intro h
      exact absurd h (by simp)
    · intro hall
      obtain ⟨q, hq, hfq⟩ := List.any_eq_true.mp h3
      rw [Bool.not_eq_true'] at hfq
      exact absurd (hall q hq) (by simp [hfq])
  · rw [if_neg h3]
    constructor
    · intro _ q hq
      have h3f : ((itemPairs d1 i1 d2 i2).any (fun q => !castEntryI q.1 q.2)) = false := by
        cases hb : ((itemPairs d1 i1 d2 i2).any (fun q => !castEntryI q.1 q.2)) with
        | true => exact absurd hb h3
        | false => rfl
      have hq2 := List.any_eq_false.mp h3f q hq
      simpa using hq2
    · intro _
      rfl

/-- C1 witness: two identical single-SInt32-field views have matching shapes
and the gate equivalence is inhabited at them (and the gate indeed succeeds,
the single pair (7, 7) having a non-null entry). -/
theorem C1_cast_matrix_gate_witness :
    (compare_record cdemo1 idemo cdemo1 idemo = .ok () ↔
      ∀ q ∈ itemPairs cdemo1 idemo cdemo1 idemo, castEntryI q.1 q.2 = true) :=
  C1_cast_matrix_gate.1 cdemo1 idemo cdemo1 idemo rfl (by decide)

/-- C8: construction from a byte string uses a single 1-byte Char8 field when
no format is given; with no count the count is length / record size and a
non-multiple length is a ValueError; an explicit count needs
length at least count * record size, else an error. -/
theorem C8_fromstring_defaults :
    fromstring_parse none = some ('=', [⟨1, 0, 1, false⟩, ⟨0, 1, 1, false⟩]) ∧
    (∀ (n : Int) (format : Option (List Char)) (e : Char) (its : List Item),
      fromstring_parse format = some (e, its) → 0 < (inth its 0).size →
      (((inth its 0).size ∣ n →
         record_fromstring n (-1) format = .ok ⟨e, its, n / (inth its 0).size⟩) ∧
       (¬ (inth its 0).size ∣ n →
         record_fromstring n (-1) format =
           .error (.valueError "string size not multiple of record size")) ∧
       (∀ c : Int, 0 ≤ c →
         (n < c * (inth its 0).size →
           record_fromstring n c format =
             .error (.recordError "string size is less than requested size")) ∧
         (c * (inth its 0).size ≤ n →
           record_fromstring n c format = .ok ⟨e, its, c⟩)))) := by
  constructor
  · decide
  · intro n format e its hp hpos
    refine ⟨?_, ?_, ?_⟩
    · intro hdvd
      have h0 : n % (inth its 0).size = 0 := Int.emod_eq_zero_of_dvd hdvd
      simp [record_fromstring, hp, h0]
    · intro hnd
      have h0 : n % (inth its 0).size ≠ 0 := fun h => hnd (Int.dvd_of_emod_eq_zero h)
      simp [record_fromstring, hp, h0]
    · intro c hc
      constructor
      · intro hlt
        simp [record_fromstring, hp, Int.not_lt.mpr hc, hlt]
      · intro hge
        simp [record_fromstring, hp, Int.not_lt.mpr hc, Int.not_lt.mpr hge]

/-- C8 witness at the format i16 (record size 2): length 6 with no count
gives count 3; length 7 with no count is the ValueError; length 6 with
explicit count 4 is the size error; length 6 with explicit count 2 is
accepted. -/
theorem C8_fromstring_defaults_witness :
    record_fromstring 6 (-1) (some ['=', 'i', '1', '6']) =
      .ok ⟨'=', [⟨1, 0, 2, false⟩, ⟨0, 5, 2, false⟩], 3⟩ ∧
    record_fromstring 7 (-1) (some ['=', 'i', '1', '6']) =
      .error (.valueError "string size not multiple of record size") ∧
    record_fromstring 6 4 (some ['=', 'i', '1', '6']) =
      .error (.recordError "string size is less than requested size") ∧
    record_fromstring 6 2 (some ['=', 'i', '1', '6']) =
      .ok ⟨'=', [⟨1, 0, 2, false⟩, ⟨0, 5, 2, false⟩], 2⟩ := by
  have h6 := C8_fromstring_defaults.2 6 (some ['=', 'i', '1', '6']) '='
    [⟨1, 0, 2, false⟩, ⟨0, 5, 2, false⟩] (by decide) (by decide)
  have h7 := C8_fromstring_defaults.2 7 (some ['=', 'i', '1', '6']) '='
    [⟨1, 0, 2, false⟩, ⟨0, 5, 2, false⟩] (by decide) (by decide)
  refine ⟨?_, ?_, ?_, ?_⟩
  · have := h6.1 (by decide)
    simpa using this
  · exact h7.2.1 (by decide)
  · exact (h6.2.2 4 (by decide)).1 (by decide)
  · exact (h6.2.2 2 (by decide)).2 (by decide)

/-- Accumulator form of maxStrWidth: folding the width maximum from a
starting accumulator. -/
theorem maxStrWidth_acc (vs : List PyObj) : ∀ a : Nat,
    List.foldl (fun a v => match v with
      | PyObj.pstr s => max a s.length
      | _ => a) a vs = max a (maxStrWidth vs) := by
  induction vs with
  | nil => intro a; simp [maxStrWidth]
  | cons v rest ih =>
    intro a
    cases v with
    | pstr s =>
      simp only [maxStrWidth, List.foldl_cons]
      rw [ih, ih]
      omega
    | pint n =>
      simp only [maxStrWidth, List.foldl_cons]
      rw [ih, ih]
      omega
    | pfloat =>
      simp only [maxStrWidth, List.foldl_cons]
      rw [ih, ih]
      omega
    | pcomplex =>
      simp only [maxStrWidth, List.foldl_cons]
      rw [ih, ih]
      omega
    | pother =>
      simp only [maxStrWidth, List.foldl_cons]
      rw [ih, ih]
      omega

/-- Promotion from a String state: once a position has recorded a string of
positive width, numeric observations leave it alone, and further strings keep
the widest width. -/
theorem promote_fold_neg (vs : List PyObj) : ∀ w : Nat, 0 < w →
    (∀ s, PyObj.pstr s ∈ vs → 0 < s.length) →
    List.foldl promote_one (-(w : Int)) vs = -(max w (maxStrWidth vs) : Int) := by
  induction vs with
  | nil =>
    intro w hw _
    simp [maxStrWidth]
  | cons v rest ih =>
    intro w hw hpos
    have hrest : ∀ s, PyObj.pstr s ∈ rest → 0 < s.length :=
      fun s hs => hpos s (List.mem_cons_of_mem _ hs)
    cases v with
    | pstr s =>
      have hs : 0 < s.length := hpos s (List.mem_cons_self _ _)
      have h1 : promote_one (-(w : Int)) (PyObj.pstr s) = -((max w s.length : Nat) : Int) := by
        simp only [promote_one]
        split <;> push_cast <;> omega
      rw [List.foldl_cons, h1, ih (max w s.length) (by omega) hrest]
      have h2 : maxStrWidth (PyObj.pstr s :: rest) = max (max 0 s.length) (maxStrWidth rest) := by
        simp only [maxStrWidth, List.foldl_cons]
        rw [maxStrWidth_acc]
        rfl
      rw [h2]
      push_cast
      omega
    | pint n =>
      have h1 : promote_one (-(w : Int)) (PyObj.pint n) = -(w : Int) := by
        simp only [promote_one]
        split <;> omega
      rw [List.foldl_cons, h1]
      exact ih w hw hrest
    | pfloat =>
      have h1 : promote_one (-(w : Int)) PyObj.pfloat = -(w : Int) := by
        simp only [promote_one]
        split <;> omega
      rw [List.foldl_cons, h1]
      exact ih w hw hrest
    | pcomplex =>
      have h1 : promote_one (-(w : Int)) PyObj.pcomplex = -(w : Int) := by
        simp only [promote_one]
        split <;> omega
      rw [List.foldl_cons, h1]
      exact ih w hw hrest
    | pother =>
      rw [List.foldl_cons]
      exact ih w hw hrest

/-- Width maximum over a list headed by a string value. -/
theorem maxStrWidth_cons_str (s : List Char) (rest : List PyObj) :
    maxStrWidth (PyObj.pstr s :: rest) = max (max 0 s.length) (maxStrWidth rest) := by
  simp only [maxStrWidth, List.foldl_cons]
  rw [maxStrWidth_acc]
  rfl

/-- Promotion from a numeric-ladder state: a string observation of positive
width always takes over the position, and the numeric states only promote
upward along SInt32, Float64, Complex64. -/
theorem promote_fold_ladder (vs : List PyObj) : ∀ t : Int,
    (t = 0 ∨ t = 7 ∨ t = 9 ∨ t = 11) →
    (∀ s, PyObj.pstr s ∈ vs → 0 < s.length) →
    List.foldl promote_one t vs =
      (if vs.any isStrV then -(maxStrWidth vs : Int)
       else max t (if vs.any isComplexV then 11 else if vs.any isFloatV then 9
                   else if vs.any isIntV then 7 else 0)) := by
  induction vs with
  | nil =>
    intro t ht _
    simp only [List.foldl_nil, List.any_nil, Bool.false_eq_true, if_false]
    omega
  | cons v rest ih =>
    intro t ht hpos
    have hrest : ∀ s, PyObj.pstr s ∈ rest → 0 < s.length :=
      fun s hs => hpos s (List.mem_cons_of_mem _ hs)
    cases v with
    | pstr s =>
      have hs : 0 < s.length := hpos s (List.mem_cons_self _ _)
      have h1 : promote_one t (PyObj.pstr s) = -(s.length : Int) := by
        simp only [promote_one]
        split
        · rfl
        · omega
      rw [List.foldl_cons, h1]
      have hneg := promote_fold_neg rest s.length hs hrest
      rw [show -((s.length : Nat) : Int) = -((s.length : Nat) : Int) from rfl] at hneg
      rw [hneg, maxStrWidth_cons_str]
      have e1 : isStrV (PyObj.pstr s) = true := rfl
      simp only [List.any_cons, e1, Bool.true_or, if_true]
      push_cast
      omega
    | pint n =>
      have e1 : isStrV (PyObj.pint n) = false := rfl
      have e2 : isComplexV (PyObj.pint n) = false := rfl
      have e3 : isFloatV (PyObj.pint n) = false := rfl
      have e4 : isIntV (PyObj.pint n) = true := rfl
      have e5 : maxStrWidth (PyObj.pint n :: rest) = maxStrWidth rest := rfl
      have hacc : List.foldl promote_one t (PyObj.pint n :: rest) =
          List.foldl promote_one (max t 7) rest := by
        rw [List.foldl_cons]
        congr 1
        simp only [promote_one]
        split <;> omega
      rw [hacc, ih (max t 7) (by omega) hrest]
      simp only [List.any_cons, e1, e2, e3, e4, e5, Bool.false_or, Bool.true_or]
      by_cases hS : rest.any isStrV = true <;>
        by_cases hC : rest.any isComplexV = true <;>
          by_cases hF : rest.any isFloatV = true <;>
            by_cases hI : rest.any isIntV = true <;>
              simp [hS, hC, hF, hI] <;> omega
    | pfloat =>
      have e1 : isStrV PyObj.pfloat = false := rfl
      have e2 : isComplexV PyObj.pfloat = false := rfl
      have e3 : isFloatV PyObj.pfloat = true := rfl
      have e4 : isIntV PyObj.pfloat = false := rfl
      have e5 : maxStrWidth (PyObj.pfloat :: rest) = maxStrWidth rest := rfl
      have hacc : List.foldl promote_one t (PyObj.pfloat :: rest) =
          List.foldl promote_one (max t 9) rest := by
        rw [List.foldl_cons]
        congr 1
        simp only [promote_one]
        split <;> omega
      rw [hacc, ih (max t 9) (by omega) hrest]
      simp only [List.any_cons, e1, e2, e3, e4, e5, Bool.false_or, Bool.true_or]
      by_cases hS : rest.any isStrV = true <;>
        by_cases hC : rest.any isComplexV = true <;>
          by_cases hF : rest.any isFloatV = true <;>
            by_cases hI : rest.any isIntV = true <;>
              simp [hS, hC, hF, hI] <;> omega
    | pcomplex =>
      have e1 : isStrV PyObj.pcomplex = false := rfl
      have e2 : isComplexV PyObj.pcomplex = true := rfl
      have e3 : isFloatV PyObj.pcomplex = false := rfl
      have e4 : isIntV PyObj.pcomplex = false := rfl
      have e5 : maxStrWidth (PyObj.pcomplex :: rest) = maxStrWidth rest := rfl
      have hacc : List.foldl promote_one t (PyObj.pcomplex :: rest) =
          List.foldl promote_one (max t 11) rest := by
        rw [List.foldl_cons]
        congr 1
        simp only [promote_one]
        split <;> omega
      rw [hacc, ih (max t 11) (by omega) hrest]
      simp only [List.any_cons, e1, e2, e3, e4, e5, Bool.false_or, Bool.true_or]
      by_cases hS : rest.any isStrV = true <;>
        by_cases hC : rest.any isComplexV = true <;>
          by_cases hF : rest.any isFloatV = true <;>
            by_cases hI : rest.any isIntV = true <;>
              simp [hS, hC, hF, hI]
    | pother =>
      have e1 : isStrV PyObj.pother = false := rfl
      have e2 : isComplexV PyObj.pother = false := rfl
      have e3 : isFloatV PyObj.pother = false := rfl
      have e4 : isIntV PyObj.pother = false := rfl
      have e5 : maxStrWidth (PyObj.pother :: rest) = maxStrWidth rest := rfl
      have hacc : List.foldl promote_one t (PyObj.pother :: rest) =
          List.foldl promote_one t rest := rfl
      rw [hacc, ih t ht hrest]
      simp only [List.any_cons, e1, e2, e3, e4, e5, Bool.false_or]

/-- C9 counterexample: a field position that observes an integer and then a
two-character string is inferred by the code as a String field of width 2
(encoded -2), while the claimed precedence SInt32 over String would infer
SInt32 (encoded 7). -/
theorem C9_promotion_counterexample :
    infer_type [PyObj.pint 1, PyObj.pstr ['a', 'b']] = -2 ∧
    claim_promote [PyObj.pint 1, PyObj.pstr ['a', 'b']] = 7 ∧
    infer_type [PyObj.pint 1, PyObj.pstr ['a', 'b']] ≠
      claim_promote [PyObj.pint 1, PyObj.pstr ['a', 'b']] := by
  refine ⟨rfl, rfl, by decide⟩

/-- C9 amended: type inference promotes along the numeric precedence
Complex64 over Float64 over SInt32, but any observed string (the widths being
positive) overrides the numerics and the widest observed width wins; a
position observing none of the four kinds keeps the encoded type 0, which the
construction then rejects with the message Unkown format type instead of
defaulting to SInt32. -/
theorem C9_promotion_amended :
    (∀ vs : List PyObj, (∀ s, PyObj.pstr s ∈ vs → 0 < s.length) →
      infer_type vs = code_promote vs) ∧
    infer_type [] = 0 ∧
    fmt_of_inferred (infer_type []) = .error "Unkown format type" := by
  refine ⟨?_, rfl, rfl⟩
  intro vs hpos
  have h := promote_fold_ladder vs 0 (Or.inl rfl) hpos
  unfold infer_type code_promote
  rw [h]
  by_cases hS : vs.any isStrV = true <;>
    by_cases hC : vs.any isComplexV = true <;>
      by_cases hF : vs.any isFloatV = true <;>
        by_cases hI : vs.any isIntV = true <;>
          simp [hS, hC, hF, hI]

/-- C9 amended witness: the concrete observations float then string of width
3 infer the String field of width 3; with no string the numeric ladder gives
Float64; and the empty observation list keeps type 0 and fails the format
construction. -/
theorem C9_promotion_amended_witness :
    infer_type [PyObj.pfloat, PyObj.pstr ['a', 'b', 'c']] =
      code_promote [PyObj.pfloat, PyObj.pstr ['a', 'b', 'c']] ∧
    infer_type [PyObj.pint 2, PyObj.pfloat] =
      code_promote [PyObj.pint 2, PyObj.pfloat] ∧
    fmt_of_inferred (infer_type []) = .error "Unkown format type" :=
  ⟨C9_promotion_amended.1 [PyObj.pfloat, PyObj.pstr ['a', 'b', 'c']]
      (by intro s hs; simp at hs; simp [hs]),
   C9_promotion_amended.1 [PyObj.pint 2, PyObj.pfloat]
      (by intro s hs; simp at hs),
   C9_promotion_amended.2.2⟩

/-- Blanks skipped before a field do not move the following comma. -/
theorem skip_space_fnext : ∀ f : List Char, format_next (skip_space f) = format_next f := by
  intro f
  induction f with
  | nil => rfl
  | cons c rest ih =>
    by_cases hc : c = ' '
    · subst hc
      rw [show skip_space (' ' :: rest) = skip_space rest from by simp [skip_space]]
      rw [ih]
      simp [format_next]
    · simp [skip_space, hc]

/-- The digit loop consumes no comma, so the next field is unchanged. -/
theorem takeDigits_fnext : ∀ (l : List Char) (cnt : Int),
    format_next (takeDigits cnt l).2 = format_next l := by
  intro l
  induction l with
  | nil => intro cnt; rfl
  | cons c rest ih =>
    intro cnt
    by_cases hd : '0' ≤ c ∧ c ≤ '9'
    · have hc : c ≠ ',' := by
        rintro rfl
        exact absurd hd.1 (by decide)
      rw [show takeDigits cnt (c :: rest) =
        takeDigits (10 * cnt + ((c.toNat : Int) - 48)) rest from by simp [takeDigits, hd]]
      rw [ih]
      simp [format_next, hc]
    · simp [takeDigits, hd]

/-- A successful type_check forces the head characters to agree. -/
theorem type_check_head : ∀ f d : List Char, type_check f d = true → f ≠ [] → d ≠ [] →
    headCharD f = headCharD d := by
  intro f d h hf hd
  cases f with
  | nil => exact absurd rfl hf
  | cons c fr =>
    cases d with
    | nil => exact absurd rfl hd
    | cons e dr =>
      by_cases hce : c = e
      · simp [headCharD, hce]
      · rw [show type_check (c :: fr) (e :: dr) = false from by simp [type_check, hce]] at h
        exact absurd h (by simp)

/-- A successful catalog scan means the format head is one of the catalog
code heads, none of which is a comma. -/
theorem scanType_head_ne_comma : ∀ (cand : List Int) (f : List Char) (i : Int),
    scanType cand f = some i →
    (∀ j ∈ cand, reprOfI j ≠ [] ∧ headCharD (reprOfI j) ≠ ',') →
    f ≠ [] → headCharD f ≠ ',' := by
  intro cand
  induction cand with
  | nil =>
    intro f i h
    simp [scanType] at h
  | cons j rest ih =>
    intro f i h hj hf
    unfold scanType at h
    split at h
    · rename_i hcond
      obtain ⟨hr1, hr2⟩ := hj j (List.mem_cons_self _ _)
      rcases hcond with htc | ⟨-, heq⟩
      · rw [type_check_head f (reprOfI j) htc hf hr1]
        exact hr2
      · rw [heq]
        exact hr2
    · exact ih f i h (fun k hk => hj k (List.mem_cons_of_mem _ hk)) hf

/-- A successful parse of one type code site consumes a nonempty head that is
not a comma and only digits after it, so the next field is unchanged. -/
theorem ftas_shape : ∀ (f : List Char) (t sz : Int) (rest2 : List Char),
    format_type_and_size f = some (t, sz, rest2) →
    f ≠ [] ∧ format_next f = format_next rest2 := by
  intro f t sz rest2 h
  unfold format_type_and_size at h
  cases hscan : scanType descr_indices f with
  | none =>
    rw [hscan] at h
    exact absurd h (by simp)
  | some t2 =>
    rw [hscan] at h
    cases f with
    | nil => exact absurd h (by simp)
    | cons c rest =>
      refine ⟨by simp, ?_⟩
      have hc : c ≠ ',' := by
        have hh := scanType_head_ne_comma descr_indices (c :: rest) t2 hscan
          (by decide) (by simp)
        simpa [headCharD] using hh
      simp only [Option.some.injEq, Prod.mk.injEq] at h
      obtain ⟨-, -, hrest⟩ := h
      rw [← hrest, takeDigits_fnext rest 0]
      simp [format_next, hc]

/-- The field loop of item_FromFormat visits exactly the comma-separated
fields that Format_StringLength counts (at the same fuel). -/
theorem parse_count : ∀ (fuel : Nat) (off : Int) (sw : Bool) (f : List Char)
    (fields : List Item),
    parseFieldsF fuel off sw f = some fields → strlengthF fuel f = fields.length := by
  intro fuel
  induction fuel with
  | zero =>
    intro off sw f fields h
    simp only [parseFieldsF, Option.some.injEq] at h
    subst h
    rfl
  | succ fuel ih =>
    intro off sw f fields h
    cases f with
    | nil =>
      simp only [parseFieldsF, Option.some.injEq] at h
      subst h
      rfl
    | cons c rest =>
      unfold parseFieldsF at h
      cases hft : format_type_and_size (skip_space (c :: rest)) with
      | none =>
        rw [hft] at h
        exact absurd h (by simp)
      | some prod =>
        obtain ⟨t, sz, rest2⟩ := prod
        rw [hft] at h
        dsimp only at h
        cases hp : parseFieldsF fuel (off + sz) sw (format_next rest2) with
        | none =>
          rw [hp] at h
          exact absurd h (by simp)
        | some tail =>
          rw [hp] at h
          simp only [Option.some.injEq] at h
          subst h
          have h3 : format_next (c :: rest) = format_next rest2 := by
            rw [← skip_space_fnext (c :: rest)]
            exact (ftas_shape (skip_space (c :: rest)) t sz rest2 hft).2
          show 1 + strlengthF fuel (format_next (c :: rest)) = _
          rw [h3, ih (off + sz) sw (format_next rest2) tail hp]
          simp [Nat.add_comm]

/-- A field whose type code site fails to parse makes the whole field loop of
item_FromFormat fail. -/
theorem parse_bad_field : ∀ (fuel : Nat) (off : Int) (sw : Bool) (f : List Char),
    (∃ s ∈ fieldStartsF fuel f, format_type_and_size (skip_space s) = none) →
    parseFieldsF fuel off sw f = none := by
  intro fuel
  induction fuel with
  | zero =>
    intro off sw f h
    simp [fieldStartsF] at h
  | succ fuel ih =>
    intro off sw f h
    cases f with
    | nil => simp [fieldStartsF] at h
    | cons c rest =>
      obtain ⟨s, hs, hbad⟩ := h
      simp only [fieldStartsF, List.mem_cons] at hs
      rcases hs with rfl | hs
      · unfold parseFieldsF
        rw [hbad]
      · unfold parseFieldsF
        cases hft : format_type_and_size (skip_space (c :: rest)) with
        | none => rfl
        | some prod =>
          obtain ⟨t, sz, rest2⟩ := prod
          have h3 : format_next (c :: rest) = format_next rest2 := by
            rw [← skip_space_fnext (c :: rest)]
            exact (ftas_shape (skip_space (c :: rest)) t sz rest2 hft).2
          dsimp only
          rw [ih (off + sz) sw (format_next rest2) ⟨s, by rw [← h3]; exact hs, hbad⟩]

/-- C7 counterexample: the format s, a String code with no decimal width,
does not fail; it is accepted as a String field of byte width 0. -/
theorem C7_missing_width_counterexample :
    from_format ['s'] = some ('=', [⟨1, 0, 0, false⟩, ⟨0, 0, 0, false⟩]) ∧
    (inth [⟨1, 0, 0, false⟩, (⟨0, 0, 0, false⟩ : Item)] 1).type = 0 ∧
    (inth [⟨1, 0, 0, false⟩, (⟨0, 0, 0, false⟩ : Item)] 1).size = 0 := by
  decide

/-- C7 amended: a format string containing a malformed or unknown type code
(a field whose code site matches no catalog entry) fails with a FormatError
and yields no layout, and an empty format also fails; but a String code with
no decimal width after it does not fail: it is accepted as a String field of
byte width 0. -/
theorem C7_bad_code_amended :
    (∀ (e : Char) (f : List Char),
      (∃ s ∈ field_starts f, format_type_and_size (skip_space s) = none) →
      item_FromFormat e f = none) ∧
    (∀ e : Char, item_FromFormat e [] = none) ∧
    from_format ['s'] = some ('=', [⟨1, 0, 0, false⟩, ⟨0, 0, 0, false⟩]) := by
  refine ⟨?_, fun e => rfl, by decide⟩
  intro e f h
  by_cases h0 : Format_StringLength f = 0
  · simp [item_FromFormat, h0]
  · have hp := parse_bad_field (f.length + 1) 0 (format_swap e) f h
    simp [item_FromFormat, h0, hp]

/-- C7 amended witness: the format i32,q has a second field with the unknown
code q and is rejected, while the format s alone is accepted as a zero-width
String field. -/
theorem C7_bad_code_amended_witness :
    item_FromFormat '=' ['i', '3', '2', ',', 'q'] = none ∧
    item_FromFormat '=' ['z', '4'] = none :=
  ⟨C7_bad_code_amended.1 '=' ['i', '3', '2', ',', 'q'] (by decide),
   C7_bad_code_amended.1 '=' ['z', '4'] (by decide)⟩

/-- Every catalog type has a nonempty textual code. -/
theorem reprOfI_ne_nil (t : Int) (h0 : 0 ≤ t) (h1 : t ≤ 11) : reprOfI t ≠ [] := by
  interval_cases t <;> decide

/-- Bounds of the decimal digit characters. -/
theorem digitChar_bounds (d : Nat) (hd : d < 10) :
    '0' ≤ digitChar d ∧ digitChar d ≤ '9' := by
  interval_cases d <;> exact ⟨by decide, by decide⟩

/-- Numeric value read back from a decimal digit character. -/
theorem digitChar_val (d : Nat) (hd : d < 10) :
    ((digitChar d).toNat : Int) - 48 = d := by
  interval_cases d <;> decide

/-- The decimal digits of a number form a nonempty list headed by a digit. -/
theorem natDigits_head : ∀ n : Nat, ∃ c cs, natDigits n = c :: cs ∧ '0' ≤ c ∧ c ≤ '9' := by
  intro n
  induction n using Nat.strong_induction_on with
  | _ n ih =>
    by_cases h : n < 10
    · exact ⟨digitChar n, [], by rw [natDigits.eq_def]; simp [h],
        (digitChar_bounds n h).1, (digitChar_bounds n h).2⟩
    · obtain ⟨c, cs, hcc, h1, h2⟩ := ih (n / 10) (Nat.div_lt_self (by omega) (by omega))
      refine ⟨c, cs ++ [digitChar (n % 10)], ?_, h1, h2⟩
      rw [natDigits.eq_def]
      simp [h, hcc]

/-- The digit loop of the parser reads the decimal digits of a number back as
that number, continuing with whatever follows. -/
theorem takeDigits_natDigits : ∀ (n : Nat) (acc : Int) (rest : List Char),
    takeDigits acc (natDigits n ++ rest) =
      takeDigits (acc * 10 ^ (natDigits n).length + n) rest := by
  intro n
  induction n using Nat.strong_induction_on with
  | _ n ih =>
    intro acc rest
    by_cases h : n < 10
    · rw [show natDigits n = [digitChar n] from by rw [natDigits.eq_def]; simp [h]]
      rw [show ([digitChar n] ++ rest) = digitChar n :: rest from rfl]
      rw [show takeDigits acc (digitChar n :: rest) =
          takeDigits (10 * acc + (((digitChar n).toNat : Int) - 48)) rest from by
        simp [takeDigits, digitChar_bounds n h]]
      rw [digitChar_val n h]
      congr 1
      simp
      ring
    · have hlt : n / 10 < n := Nat.div_lt_self (by omega) (by omega)
      have hm : n % 10 < 10 := Nat.mod_lt n (by omega)
      rw [show natDigits n = natDigits (n / 10) ++ [digitChar (n % 10)] from by
        rw [natDigits.eq_def]; simp [h]]
      rw [List.append_assoc]
      rw [show [digitChar (n % 10)] ++ rest = digitChar (n % 10) :: rest from rfl]
      rw [ih (n / 10) hlt acc (digitChar (n % 10) :: rest)]
      rw [show takeDigits (acc * 10 ^ (natDigits (n / 10)).length + ((n / 10 : Nat) : Int))
            (digitChar (n % 10) :: rest) =
          takeDigits (10 * (acc * 10 ^ (natDigits (n / 10)).length + ((n / 10 : Nat) : Int)) +
            (((digitChar (n % 10)).toNat : Int) - 48)) rest from by
        simp [takeDigits, digitChar_bounds (n % 10) hm]]
      rw [digitChar_val (n % 10) hm]
      congr 1
      have hlen : (natDigits (n / 10) ++ [digitChar (n % 10)]).length =
          (natDigits (n / 10)).length + 1 := by simp
      rw [hlen, pow_succ]
      have hmod : (10 * (n / 10) + n % 10 : Nat) = n := Nat.div_add_mod n 10
      have hmodZ : (10 * ((n / 10 : Nat) : Int) + ((n % 10 : Nat) : Int)) = (n : Int) := by
        exact_mod_cast hmod
      linear_combination hmodZ

/-- Reading the decimal digits of a number followed by a field separator
yields the number and the separator. -/
theorem takeDigits_natDigits_sep (n : Nat) (rest : List Char)
    (h : rest = [] ∨ ∃ r, rest = ',' :: r) :
    takeDigits 0 (natDigits n ++ rest) = ((n : Int), rest) := by
  rw [takeDigits_natDigits n 0 rest]
  rcases h with rfl | ⟨r, rfl⟩
  · simp [takeDigits]
  · simp [takeDigits]

/-- Parsing one canonical field code: the descending catalog scan identifies
exactly the printed type, a String code is followed by its decimal width, the
following separator is untouched, and the printed field starts with no
blank. -/
theorem ftas_canon (t sz : Int) (rest : List Char)
    (h0 : 0 ≤ t) (h1 : t ≤ 11)
    (hsz : if t = 0 then 0 ≤ sz else sz = descrSizeI t)
    (hrest : rest = [] ∨ ∃ r, rest = ',' :: r) :
    format_type_and_size (fieldCanonTS t sz ++ rest) = some (t, sz, rest) ∧
    skip_space (fieldCanonTS t sz ++ rest) = fieldCanonTS t sz ++ rest := by
  interval_cases t
  · rw [if_pos rfl] at hsz
    obtain ⟨c, cs, hcc, hd0, hd9⟩ := natDigits_head sz.toNat
    have hc1 : c ≠ ' ' := by rintro rfl; exact absurd hd0 (by decide)
    have hc2 : c ≠ ',' := by rintro rfl; exact absurd hd0 (by decide)
    have hfc : fieldCanonTS 0 sz ++ rest = 's' :: (natDigits sz.toNat ++ rest) := by
      simp [fieldCanonTS, reprOfI]
    constructor
    · rw [hfc]
      unfold format_type_and_size
      rw [show scanType descr_indices ('s' :: (natDigits sz.toNat ++ rest)) = some 0 from by
        rw [hcc]
        rw [show (c :: cs) ++ rest = c :: (cs ++ rest) from rfl]
        simp [scanType, descr_indices, reprOfI, type_check, headCharD, hc1, hc2]]
      dsimp only
      rw [takeDigits_natDigits_sep sz.toNat rest hrest]
      simp [Int.toNat_of_nonneg hsz]
    · rw [hfc]
      simp [skip_space]
  all_goals
    rw [if_neg (by decide)] at hsz
  all_goals subst hsz
  all_goals rcases hrest with rfl | ⟨r, rfl⟩
  all_goals try exact ⟨by decide, by decide⟩
  all_goals constructor
  all_goals try
    simp [format_type_and_size, scanType, descr_indices, reprOfI, type_check, headCharD,
      takeDigits, fieldCanonTS, descrSizeI]
  all_goals
    simp [skip_space, fieldCanonTS, reprOfI]

/-- Length of the built field list. -/
theorem buildFields_length (sw : Bool) : ∀ (specs : List FieldSpec) (off : Int),
    (buildFields sw off specs).length = specs.length := by
  intro specs
  induction specs with
  | nil => intro off; rfl
  | cons s rest ih => intro off; simp [buildFields, ih]

/-- The canonical print of one field is nonempty. -/
theorem fieldCanonTS_ne_nil (t sz : Int) (h0 : 0 ≤ t) (h1 : t ≤ 11) :
    fieldCanonTS t sz ≠ [] := by
  intro h
  exact reprOfI_ne_nil t h0 h1 (List.append_eq_nil.mp h).1

/-- The field loop of item_FromFormat reads the canonical print of a
well-formed field list back as exactly that field list. -/
theorem rt_parse : ∀ (specs : List FieldSpec) (sw : Bool) (off : Int) (fuel : Nat),
    (canonicalFields (buildFields sw off specs)).length < fuel →
    (∀ s ∈ specs, FieldSpecWF s) →
    parseFieldsF fuel off sw (canonicalFields (buildFields sw off specs)) =
      some (buildFields sw off specs) := by
  intro specs
  induction specs with
  | nil =>
    intro sw off fuel hfuel hwf
    cases fuel with
    | zero => rfl
    | succ fuel => rfl
  | cons s srest ih =>
    intro sw off fuel hfuel hwf
    obtain ⟨hw0, hw11, hwsz⟩ := hwf s (List.mem_cons_self _ _)
    have hwrest : ∀ x ∈ srest, FieldSpecWF x := fun x hx => hwf x (List.mem_cons_of_mem _ hx)
    have hne := fieldCanonTS_ne_nil s.ftype s.fsize hw0 hw11
    obtain ⟨c, cs, hcc⟩ := List.exists_cons_of_ne_nil hne
    cases srest with
    | nil =>
      have hftas := (ftas_canon s.ftype s.fsize [] hw0 hw11 hwsz (Or.inl rfl)).1
      have hskip := (ftas_canon s.ftype s.fsize [] hw0 hw11 hwsz (Or.inl rfl)).2
      rw [List.append_nil] at hftas hskip
      cases fuel with
      | zero => exact absurd hfuel (by omega)
      | succ fuel =>
        rw [show canonicalFields (buildFields sw off [s]) =
            fieldCanonTS s.ftype s.fsize from by simp [buildFields, canonicalFields]]
        rw [hcc]
        unfold parseFieldsF
        rw [← hcc, hskip, hftas]
        dsimp only
        rw [show format_next [] = ([] : List Char) from rfl]
        cases fuel with
        | zero => simp [buildFields, parseFieldsF]
        | succ fuel2 => simp [buildFields, parseFieldsF]
    | cons s2 srest2 =>
      have hsep : (',' :: canonicalFields (buildFields sw (off + s.fsize) (s2 :: srest2))) = [] ∨
          ∃ r, (',' :: canonicalFields (buildFields sw (off + s.fsize) (s2 :: srest2))) = ',' :: r :=
        Or.inr ⟨_, rfl⟩
      have hftas := (ftas_canon s.ftype s.fsize _ hw0 hw11 hwsz hsep).1
      have hskip := (ftas_canon s.ftype s.fsize _ hw0 hw11 hwsz hsep).2
      cases fuel with
      | zero => exact absurd hfuel (by omega)
      | succ fuel =>
        have hcanon : canonicalFields (buildFields sw off (s :: s2 :: srest2)) =
            fieldCanonTS s.ftype s.fsize ++
              (',' :: canonicalFields (buildFields sw (off + s.fsize) (s2 :: srest2))) := by
          simp [buildFields, canonicalFields]
        rw [hcanon] at hfuel ⊢
        rw [hcc, List.cons_append]
        unfold parseFieldsF
        rw [← List.cons_append, ← hcc, hskip, hftas]
        dsimp only
        rw [show ∀ r : List Char, format_next (',' :: r) = r from fun r => rfl]
        rw [ih sw (off + s.fsize) fuel ?hlen hwrest]
        · simp [buildFields]
        · have hpos : 0 < (fieldCanonTS s.ftype s.fsize).length := List.length_pos.mpr hne
          simp only [List.length_append, List.length_cons] at hfuel
          omega

/-- The loop of item_asformat over a contiguous item axis (start 0, step 1)
prints the canonical spelling of the traversed fields. -/
theorem asf_canon : ∀ (flds : List Item) (its : List Item) (j : Int) (fuel : Nat),
    flds.length < fuel →
    (∀ m : Nat, m < flds.length →
      inth its (j + (m : Int) + 1) = flds.getD m ⟨0, 0, 0, false⟩) →
    asfLoopF fuel j (j + (flds.length : Int)) 1 its = canonicalFields flds := by
  intro flds
  induction flds with
  | nil =>
    intro its j fuel hfuel hacc
    cases fuel with
    | zero => rfl
    | succ fuel => simp [asfLoopF, canonicalFields]
  | cons a rest ih =>
    intro its j fuel hfuel hacc
    cases fuel with
    | zero => exact absurd hfuel (by omega)
    | succ fuel =>
      have ha : inth its (j + 1) = a := by
        have h := hacc 0 (by simp)
        simpa using h
      have hstep : ¬ ((1 : Int) < 0) := by norm_num
      unfold asfLoopF
      rw [if_pos (by rw [if_neg hstep]; simp only [List.length_cons]; omega)]
      rw [ha]
      cases rest with
      | nil =>
        rw [if_neg (by simp only [List.length_cons, List.length_nil]; omega)]
        rw [show (j + ((List.length [a] : Nat) : Int)) =
            (j + 1) + ((List.length ([] : List Item) : Nat) : Int) from by
          simp only [List.length_cons, List.length_nil]; push_cast; ring]
        rw [ih its (j + 1) fuel (by simp at hfuel ⊢; omega) (by intro m hm; simp at hm)]
        simp [canonicalFields]
      | cons b rest2 =>
        rw [if_pos (by simp only [List.length_cons]; push_cast; omega)]
        rw [show (j + ((List.length (a :: b :: rest2) : Nat) : Int)) =
            (j + 1) + ((List.length (b :: rest2) : Nat) : Int) from by
          simp only [List.length_cons]; push_cast; ring]
        rw [ih its (j + 1) fuel (by simp at hfuel ⊢; omega) ?hacc2]
        · simp [canonicalFields]
        case hacc2 =>
          intro m hm
          have h := hacc (m + 1) (by simpa using Nat.succ_lt_succ hm)
          rw [show (j + ((m + 1 : Nat) : Int) + 1) = ((j + 1) + (m : Int) + 1) from by
            push_cast; ring] at h
          simpa [List.getD_cons_succ] using h

/-- Reading the format attribute of a view whose header counts its fields
prints the endian character and the canonical spelling of the fields. -/
theorem record_format_eq (hdr : Item) (fields : List Item)
    (hlen : hdr.leng = (fields.length : Int)) (e : Char) :
    record_format (hdr :: fields) e = e :: canonicalFields fields := by
  unfold record_format item_asformat
  have h1 : inth (hdr :: fields) 0 = hdr := rfl
  rw [h1]
  have h2 : dnth (fresh_dimen_for hdr.leng hdr.size) 1 =
      ⟨0, hdr.leng, 1, hdr.leng, 0, true⟩ := rfl
  rw [h2]
  rw [hlen]
  simp only [sub_zero, Int.natAbs_ofNat]
  rw [show ((fields.length : Nat) : Int) = 0 + (fields.length : Int) from by ring]
  rw [asf_canon fields (hdr :: fields) 0 (fields.length + 1) (by omega) ?acc]
  case acc =>
    intro m hm
    simp only [inth]
    rw [if_pos (by omega)]
    rw [show ((0 : Int) + (m : Int) + 1).toNat = m + 1 from by omega]
    simp

/-- The format attribute read back from any successfully parsed layout is the
canonical spelling of its fields (endian character, comma-separated codes,
byte width after the String code). -/
theorem record_format_canonical : ∀ (f : List Char) (e : Char) (its : List Item),
    from_format f = some (e, its) →
    record_format its e = canonicalFmt e (its.drop 1) := by
  intro f e its h
  simp only [from_format] at h
  cases hif : item_FromFormat (format_endian (skip_space f)).1 (format_endian (skip_space f)).2 with
  | none =>
    rw [hif] at h
    exact absurd h (by simp)
  | some its0 =>
    rw [hif] at h
    dsimp only at h
    simp only [Option.some.injEq, Prod.mk.injEq] at h
    obtain ⟨-, hits⟩ := h
    subst hits
    unfold item_FromFormat at hif
    by_cases h0 : Format_StringLength (format_endian (skip_space f)).2 = 0
    · rw [if_pos h0] at hif
      exact absurd hif (by simp)
    · rw [if_neg h0] at hif
      cases hp : parseFieldsF ((format_endian (skip_space f)).2.length + 1) 0
          (format_swap (format_endian (skip_space f)).1) (format_endian (skip_space f)).2 with
      | none =>
        rw [hp] at hif
        exact absurd hif (by simp)
      | some fields =>
        rw [hp] at hif
        simp only [Option.some.injEq] at hif
        subst hif
        have hcount : Format_StringLength (format_endian (skip_space f)).2 = fields.length :=
          parse_count _ _ _ _ _ hp
        rw [record_format_eq _ fields (by rw [hcount]) e]
        simp [canonicalFmt]

/-- C3: building an ItemLayout from any syntactically valid format string and
reading its format attribute back yields the canonical spelling (endian
character followed by the comma-separated type codes, with the byte width
appended after the String code); conversely every canonical string (any
endian code, any nonempty well-formed field list) parses back to exactly the
layout it prints, so the reconstruction round-trips byte for byte on
canonical input. -/
theorem C3_format_roundtrip :
    (∀ (f : List Char) (e : Char) (its : List Item),
      from_format f = some (e, its) →
      record_format its e = canonicalFmt e (its.drop 1)) ∧
    (∀ (e : Char) (specs : List FieldSpec),
      (e = '=' ∨ e = '<' ∨ e = '>' ∨ e = '!') → specs ≠ [] →
      (∀ s ∈ specs, FieldSpecWF s) →
      from_format (canonicalFmt e (buildFields (format_swap e) 0 specs)) =
        some (e, buildItems e specs) ∧
      record_format (buildItems e specs) e =
        canonicalFmt e (buildFields (format_swap e) 0 specs)) := by
  refine ⟨record_format_canonical, ?_⟩
  intro e specs he hne hwf
  have hparse := rt_parse specs (format_swap e) 0
      ((canonicalFields (buildFields (format_swap e) 0 specs)).length + 1) (by omega) hwf
  have hcount := parse_count _ _ _ _ _ hparse
  have hlen2 := buildFields_length (format_swap e) specs 0
  have hskip : skip_space (canonicalFmt e (buildFields (format_swap e) 0 specs)) =
      canonicalFmt e (buildFields (format_swap e) 0 specs) := by
    rcases he with rfl | rfl | rfl | rfl <;> simp [canonicalFmt, skip_space]
  have hend : format_endian (canonicalFmt e (buildFields (format_swap e) 0 specs)) =
      (e, canonicalFields (buildFields (format_swap e) 0 specs)) := by
    rcases he with rfl | rfl | rfl | rfl <;> simp [canonicalFmt, format_endian]
  have hsl : Format_StringLength (canonicalFields (buildFields (format_swap e) 0 specs)) =
      specs.length := by
    show strlengthF _ _ = _
    rw [hcount, hlen2]
  have hff : from_format (canonicalFmt e (buildFields (format_swap e) 0 specs)) =
      some (e, buildItems e specs) := by
    simp only [from_format]
    rw [hskip, hend]
    dsimp only
    unfold item_FromFormat
    rw [if_neg (by rw [hsl]; intro hq; exact hne (List.length_eq_zero.mp hq))]
    rw [hparse]
    dsimp only
    rw [hsl]
    rfl
  refine ⟨hff, ?_⟩
  rw [record_format_canonical _ _ _ hff]
  simp [buildItems, canonicalFmt]

/-- C3 witness at the canonical format of an SInt32 field and a width-3
String field: the printed string parses back to the printed layout, and the
format attribute of that layout is the same string, character for
character. -/
theorem C3_format_roundtrip_witness :
    from_format (canonicalFmt '=' (buildFields (format_swap '=') 0 [⟨7, 4⟩, ⟨0, 3⟩])) =
      some ('=', buildItems '=' [⟨7, 4⟩, ⟨0, 3⟩]) ∧
    record_format (buildItems '=' [⟨7, 4⟩, ⟨0, 3⟩]) '=' =
      canonicalFmt '=' (buildFields (format_swap '=') 0 [⟨7, 4⟩, ⟨0, 3⟩]) :=
  C3_format_roundtrip.2 '=' [⟨7, 4⟩, ⟨0, 3⟩] (Or.inl rfl) (by simp) (by
    intro s hs
    simp only [List.mem_cons, List.not_mem_nil] at hs
    rcases hs with rfl | rfl | hfalse
    · exact ⟨by norm_num, by norm_num, by norm_num [descrSizeI]⟩
    · exact ⟨by norm_num, by norm_num, by norm_num⟩
    · exact absurd hfalse (by simp))
